import Mathlib

/-! RSStodon: the parse-and-diff core.

A shallow embedding of the C++ program (`rss.cpp`, `feed.cpp`, `main.cpp`) together with the
CDATA extractor of the earlier C rendition (`rss.c`).

Conventions of the embedding.

* A C/C++ string is the sequence of its `char` code units; each code unit is a Lean `Char`
  and the whole string a Lean `String`.
* `std::vector<T>` is `List T`, `push_back` appends at the end.
* `std::stack<std::string>` is a list whose head is the top of the stack.
* `std::unordered_set<std::string>` is a duplicate-free list; only `insert` and `find` are used.
* `int` values are `Int`; the program casts container sizes to `int`, which is the identity for
  sizes below `2^31`, and never does arithmetic that leaves that range on such containers.
* A thrown exception or an operation without defined behaviour is an `Except.error`.
-/

set_option autoImplicit false

namespace RSStodon

/-! ## Outcomes -/

deriving instance DecidableEq for Except

/-- Ways in which a call can fail to return normally. -/
inductive Failure where
  /-- The exception `std::invalid_argument`, thrown on a null feed pointer. -/
  | invalidArgument
  /-- The exception `std::out_of_range`, thrown by `vector::at`. -/
  | outOfRange
  /-- A call of `top()` or `pop()` on an empty `std::stack` (no defined behaviour). -/
  | stackUnderflow
  /-- The exception `std::runtime_error`, thrown by the feed parser. -/
  | runtimeError
deriving DecidableEq

/-! ## Data model (`rss.hpp`) -/

/-- The class `RSSFeedItem`. -/
structure RSSFeedItem where
  title : String
  link : String
  guid : String
  description : String
  pubDate : String
  author : String
  categories : List String
deriving DecidableEq

/-- The class `RSSFeed`. -/
structure RSSFeed where
  title : String
  link : String
  description : String
  items : List RSSFeedItem
deriving DecidableEq

/-- The default constructor `RSSFeedItem::RSSFeedItem()`: every field cleared. -/
def RSSFeedItem.empty : RSSFeedItem :=
  { title := "", link := "", guid := "", description := "", pubDate := "", author := "",
    categories := [] }

/-- The default constructor `RSSFeed::RSSFeed()`: every field cleared. -/
def RSSFeed.empty : RSSFeed :=
  { title := "", link := "", description := "", items := [] }

/-! ## `std::stack<std::string>` and `std::unordered_set<std::string>` -/

/-- A `std::stack<std::string>`; the head of the list is the top. -/
abbrev GuidStack := List String

/-- The entries of a stack listed from the bottom (pushed first) to the top (pushed last). -/
def GuidStack.bottomToTop (s : GuidStack) : List String := s.reverse

/-- The member `push`. -/
def GuidStack.push (s : GuidStack) (x : String) : GuidStack := x :: s

/-- The member `top`; on an empty stack the behaviour is undefined. -/
def GuidStack.top (s : GuidStack) : Except Failure String :=
  match s with
  | [] => .error .stackUnderflow
  | x :: _ => .ok x

/-- The member `pop`; on an empty stack the behaviour is undefined. -/
def GuidStack.pop (s : GuidStack) : Except Failure GuidStack :=
  match s with
  | [] => .error .stackUnderflow
  | _ :: rest => .ok rest

/-- A `std::unordered_set<std::string>`, kept as a list without repetitions. -/
abbrev GuidSet := List String

/-- The member `insert`: a key already present is not inserted again. -/
def GuidSet.insertKey (s : GuidSet) (x : String) : GuidSet :=
  if x ∈ s then s else x :: s

/-- The test `set.find(x) == set.end()`. -/
def GuidSet.findIsEnd (s : GuidSet) (x : String) : Bool :=
  !(s.contains x)

/-! ## `feed.cpp` -/

/-- The loop of `getRSSFeedGUIDs`,
`for (int i = size - 1; i >= 0 && count < maxCount; i--) { stack.push(items.at(i).guid); count++; }`.
The first argument is `i + 1`, so that `0` stands for `i = -1`, where `i >= 0` fails. -/
def getRSSFeedGUIDsLoop (items : List RSSFeedItem) (maxCount : Int) :
    Nat → Int → GuidStack → Except Failure GuidStack
  | 0, _, stack => .ok stack
  | i + 1, count, stack =>
    if count < maxCount then
      match items[i]? with
      | some item => getRSSFeedGUIDsLoop items maxCount i (count + 1) (stack.push item.guid)
      | none => .error .outOfRange
    else .ok stack

/-- The function `getRSSFeedGUIDs(rssFeed, stack, maxCount)`; the result is the stack after the
call. A null `rssFeed` is `none`. -/
def getRSSFeedGUIDs (rssFeed : Option RSSFeed) (stack : GuidStack) (maxCount : Int) :
    Except Failure GuidStack :=
  match rssFeed with
  | none => .error .invalidArgument
  | some feed => getRSSFeedGUIDsLoop feed.items maxCount feed.items.length 0 stack

/-- The first loop of `extractNewRSSFeedItems`,
`while (!tempStack.empty()) { existingSet.insert(tempStack.top()); tempStack.pop(); }`. -/
def buildExistingSet : GuidStack → GuidSet → GuidSet
  | [], existingSet => existingSet
  | top :: rest, existingSet => buildExistingSet rest (existingSet.insertKey top)

/-- The second loop of `extractNewRSSFeedItems`,
`for (item : items) if (existingSet.find(item.guid) == existingSet.end()) newItems.push_back(item);`. -/
def collectNewItems (existingSet : GuidSet) :
    List RSSFeedItem → List RSSFeedItem → List RSSFeedItem
  | [], newItems => newItems
  | item :: rest, newItems =>
    if existingSet.findIsEnd item.guid then collectNewItems existingSet rest (newItems ++ [item])
    else collectNewItems existingSet rest newItems

/-- The function `extractNewRSSFeedItems(rssFeed, existingGUIDs, newItems)`; the result is
`newItems` after the call. The stack is taken by `const` reference and copied, so the caller's
stack is not changed. -/
def extractNewRSSFeedItems (rssFeed : Option RSSFeed) (existingGUIDs : GuidStack)
    (newItems : List RSSFeedItem) : Except Failure (List RSSFeedItem) :=
  match rssFeed with
  | none => .error .invalidArgument
  | some feed =>
    let existingSet := buildExistingSet existingGUIDs []
    .ok (collectNewItems existingSet feed.items newItems)

/-- The first loop of `extractNewRSSFeedItems` with the local copy kept in view: the result is
`(tempStack, existingSet)` after the loop. -/
def drainTempStack : GuidStack → GuidSet → GuidStack × GuidSet
  | [], existingSet => ([], existingSet)
  | top :: rest, existingSet => drainTempStack rest (existingSet.insertKey top)

/-- The function `extractNewRSSFeedItems` with every stack in view: the result is
`(existingGUIDs, tempStack, newItems)` at the return, where `existingGUIDs` is the caller's stack,
taken by `const` reference, and `tempStack` is the local copy that the first loop pops. -/
def extractNewRSSFeedItemsVars (rssFeed : Option RSSFeed) (existingGUIDs : GuidStack)
    (newItems : List RSSFeedItem) :
    Except Failure (GuidStack × GuidStack × List RSSFeedItem) :=
  match rssFeed with
  | none => .error .invalidArgument
  | some feed =>
    let tempStack := existingGUIDs
    let (tempStack, existingSet) := drainTempStack tempStack []
    .ok (existingGUIDs, tempStack, collectNewItems existingSet feed.items newItems)

/-! ## `main.cpp` -/

/-- The constant `MAX_FETCH_GUIDS`. -/
def MAX_FETCH_GUIDS : Int := 128

/-- The loop `while (!existingGUIDs.empty()) { reverseStack.push(existingGUIDs.top());
existingGUIDs.pop(); }` of `main`; the result is `(existingGUIDs, reverseStack)`. -/
def reverseLoop : GuidStack → GuidStack → GuidStack × GuidStack
  | [], reverseStack => ([], reverseStack)
  | top :: rest, reverseStack => reverseLoop rest (reverseStack.push top)

/-- The loop `for (int i = 0; i < bound; i++) { existingGUIDs.push(reverseStack.top());
reverseStack.pop(); }` of `main`, where the first argument is the number of iterations left. -/
def restoreLoop : Nat → GuidStack → GuidStack → Except Failure (GuidStack × GuidStack)
  | 0, existingGUIDs, reverseStack => .ok (existingGUIDs, reverseStack)
  | n + 1, existingGUIDs, reverseStack => do
    let top ← reverseStack.top
    let reverseStack ← reverseStack.pop
    restoreLoop n (existingGUIDs.push top) reverseStack

/-- The reverse-and-restore step of `main` (from `int totalGUIDs = ...` to the end of the `for`
loop), with the number of entries to drop as a parameter; `main` writes the literal `5`. The
result is `existingGUIDs` after the step. -/
def reverseAndRestore (retain : Int) (existingGUIDs : GuidStack) : Except Failure GuidStack := do
  let totalGUIDs : Int := existingGUIDs.length
  let (existingGUIDs, reverseStack) := reverseLoop existingGUIDs []
  let (existingGUIDs, _) ← restoreLoop (totalGUIDs - retain).toNat existingGUIDs reverseStack
  pure existingGUIDs

/-- The body of `main` after the feed has been built, up to the list `newItems` that it prints. -/
def mainNewItems (feed : RSSFeed) : Except Failure (List RSSFeedItem) := do
  let existingGUIDs ← getRSSFeedGUIDs (some feed) [] MAX_FETCH_GUIDS
  let existingGUIDs ← reverseAndRestore 5 existingGUIDs
  extractNewRSSFeedItems (some feed) existingGUIDs []

/-! ## Regular expressions (`std::regex`, `regex.h`)

The pattern of `extractCDATA` is a sequence of single-character atoms, some of them starred, with
one capture group. Its text is `<!\[CDATA\[([^]]*]]*[^]]*)\]\]>`.

* `std::regex` reads it with the ECMAScript grammar, where `[^]` is a complete class that matches
  every character and a `]` outside a class is an ordinary character. The group is therefore
  `[^]`, `]*`, `]`, `]*`, `[^]`, `]*`.
* `regcomp` with `REG_EXTENDED` reads it with the POSIX grammar, where a `]` right after `[^`
  belongs to the class. The group is therefore `[^]]*`, `]`, `]*`, `[^]]*`.
-/

/-- A pattern atom, matching one character. -/
inductive Atom where
  /-- An ordinary or escaped character. -/
  | lit (c : Char)
  /-- The ECMAScript class `[^]`: any character. -/
  | anyChar
  /-- A negated class with one member, as POSIX `[^]]`: any character but `c`. -/
  | notChar (c : Char)
deriving DecidableEq

/-- Whether an atom matches a character. -/
def Atom.test : Atom → Char → Bool
  | .lit c, x => x == c
  | .anyChar, _ => true
  | .notChar c, x => x != c

/-- A pattern piece: an atom, or an atom under `*`. -/
inductive Piece where
  | one (a : Atom)
  | star (a : Atom)
deriving DecidableEq

/-- A pattern with one capture group: the pieces before, inside and after the group. -/
structure Regex where
  pre : List Piece
  grp : List Piece
  suf : List Piece

/-- The pieces matching the characters of `w` literally. -/
def litPieces (w : List Char) : List Piece := w.map (fun c => Piece.one (Atom.lit c))

/-- All ways for `a*` to consume a prefix of the input, longest first (the star is greedy); each
continues with `k` on the rest of the input. -/
def starRuns {α : Type} (a : Atom) (k : List Char → List α) : List Char → List α
  | [] => k []
  | c :: cs => if a.test c then starRuns a k cs ++ k (c :: cs) else k (c :: cs)

/-- All ways for the pieces to match a prefix of the input, in the order in which a backtracking
matcher tries them; each continues with `k` on the rest of the input. -/
def runs {α : Type} : List Piece → List Char → (List Char → List α) → List α
  | [], s, k => k s
  | .one a :: ps, s, k =>
    match s with
    | [] => []
    | c :: cs => if a.test c then runs ps cs k else []
  | .star a :: ps, s, k => starRuns a (fun rest => runs ps rest k) s

/-- All matches of the pattern that start at the head of `s`, in backtracking order, each as the
text of the capture group and the input left after the match. -/
def matchesAt (re : Regex) (s : List Char) : List (List Char × List Char) :=
  runs re.pre s fun s1 =>
    runs re.grp s1 fun s2 =>
      runs re.suf s2 fun s3 => [(s1.take (s1.length - s2.length), s3)]

/-- The choice of `std::regex_search` (ECMAScript): at the leftmost position with a match, the
first match in backtracking order. The result is the text of group 1. -/
def searchFirst (re : Regex) : List Char → Option (List Char)
  | [] => (matchesAt re []).head?.map Prod.fst
  | c :: cs =>
    match matchesAt re (c :: cs) with
    | m :: _ => some m.1
    | [] => searchFirst re cs

/-- The longest of a list of matches (the one leaving the least input), the earlier one on a tie. -/
def longestMatch : List (List Char × List Char) → Option (List Char × List Char)
  | [] => none
  | m :: ms =>
    match longestMatch ms with
    | none => some m
    | some m2 => if m2.2.length < m.2.length then some m2 else some m

/-- The choice of `regexec` (POSIX): at the leftmost position with a match, the longest match.
The result is the text of group 1. -/
def searchLongest (re : Regex) : List Char → Option (List Char)
  | [] => (longestMatch (matchesAt re [])).map Prod.fst
  | c :: cs =>
    match longestMatch (matchesAt re (c :: cs)) with
    | some m => some m.1
    | none => searchLongest re cs

/-! ## `extractCDATA` -/

/-- The opener `<![CDATA[`. -/
def cdataOpen : List Char := "<![CDATA[".data

/-- The terminator `]]>`. -/
def cdataClose : List Char := "]]>".data

/-- The pattern of `rss.cpp` as `std::regex` reads it. -/
def cdataRegexEcma : Regex :=
  { pre := litPieces cdataOpen
    grp := [.one .anyChar, .star (.lit ']'), .one (.lit ']'), .star (.lit ']'),
            .one .anyChar, .star (.lit ']')]
    suf := litPieces cdataClose }

/-- The pattern of `rss.c` as `regcomp` with `REG_EXTENDED` reads it. -/
def cdataRegexPosix : Regex :=
  { pre := litPieces cdataOpen
    grp := [.star (.notChar ']'), .one (.lit ']'), .star (.lit ']'), .star (.notChar ']')]
    suf := litPieces cdataClose }

/-- The function `extractCDATA` of `rss.cpp`: group 1 of the first match, the input if there is
no match. -/
def extractCDATA (input : String) : String :=
  match searchFirst cdataRegexEcma input.data with
  | some inner => String.mk inner
  | none => input

/-- The function `extractCDATA` of `rss.c`: a copy of group 1 of the match, a copy of the input if
there is no match. -/
def extractCDATA_c (input : String) : String :=
  match searchLongest cdataRegexPosix input.data with
  | some inner => String.mk inner
  | none => input

/-! ## The parsed document (`libxml2`)

The tree that `xmlReadMemory` builds, with the parts of `xmlNode` that the program reads: the node
type, the name of an element, the list of children (`children` and its `next` chain) and the
result of `xmlNodeGetContent`. The name of an element is its local name, so `dc:creator` has the
name `creator`. -/

/-- A node of the parsed document. -/
inductive XmlNode where
  /-- An `XML_ELEMENT_NODE`. -/
  | element (name : String) (children : List XmlNode)
  /-- An `XML_TEXT_NODE`. -/
  | text (content : String)
  /-- An `XML_CDATA_SECTION_NODE`, holding the text between `<![CDATA[` and `]]>`. -/
  | cdata (content : String)
  /-- An `XML_COMMENT_NODE`. -/
  | comment (content : String)
  /-- An `XML_PI_NODE`. -/
  | pi (target : String) (content : String)

/-- The `children` list of a node; only elements have children. -/
def XmlNode.children : XmlNode → List XmlNode
  | .element _ children => children
  | _ => []

mutual
/-- The text that a node contributes to the content of an enclosing element: the text and CDATA
nodes below it, in document order. -/
def XmlNode.innerText : XmlNode → String
  | .element _ children => innerTextList children
  | .text content => content
  | .cdata content => content
  | .comment _ => ""
  | .pi _ _ => ""
/-- The concatenated text of a list of sibling nodes. -/
def innerTextList : List XmlNode → String
  | [] => ""
  | node :: rest => node.innerText ++ innerTextList rest
end

/-- The library function `xmlNodeGetContent`; `none` is a `NULL` result. -/
def xmlNodeGetContent : XmlNode → Option String
  | .element _ children => some (innerTextList children)
  | .text content => some content
  | .cdata content => some content
  | .comment content => some content
  | .pi _ content => some content

/-! ## `rss.cpp`: the item parser and the feed parser -/

/-- One iteration of the loop of `RSSFeedItem::parseFromXMLNode`, on the child `node`. -/
def RSSFeedItem.parseChild (self : RSSFeedItem) (node : XmlNode) : RSSFeedItem :=
  match node with
  | .element name _ =>
    if name = "title" then
      match xmlNodeGetContent node with
      | some temp => { self with title := extractCDATA temp }
      | none => self
    else if name = "link" then
      match xmlNodeGetContent node with
      | some temp => { self with link := extractCDATA temp }
      | none => self
    else if name = "guid" then
      match xmlNodeGetContent node with
      | some temp => { self with guid := extractCDATA temp }
      | none => self
    else if name = "description" then
      match xmlNodeGetContent node with
      | some temp => { self with description := extractCDATA temp }
      | none => self
    else if name = "pubDate" then
      match xmlNodeGetContent node with
      | some temp => { self with pubDate := extractCDATA temp }
      | none => self
    else if name = "author" then
      match xmlNodeGetContent node with
      | some temp => { self with author := extractCDATA temp }
      | none => self
    else if name = "creator" then
      match xmlNodeGetContent node with
      | some temp => { self with author := extractCDATA temp }
      | none => self
    else if name = "category" then
      match xmlNodeGetContent node with
      | some temp => { self with categories := self.categories ++ [extractCDATA temp] }
      | none => self
    else self
  | _ => self

/-- The method `RSSFeedItem::parseFromXMLNode`: the loop over the children of `itemNode`. -/
def RSSFeedItem.parseFromXMLNode (self : RSSFeedItem) (itemNode : XmlNode) : RSSFeedItem :=
  itemNode.children.foldl RSSFeedItem.parseChild self

/-- The constructor `RSSFeedItem::RSSFeedItem(const xmlNode*)`: clear every field, then parse. -/
def RSSFeedItem.ofXMLNode (itemNode : XmlNode) : RSSFeedItem :=
  RSSFeedItem.empty.parseFromXMLNode itemNode

/-- One iteration of the inner loop of `RSSFeed::fetchFromURL`, on the child `node` of a
`channel` element. -/
def RSSFeed.parseChannelChild (self : RSSFeed) (node : XmlNode) : RSSFeed :=
  match node with
  | .element name _ =>
    if name = "title" then
      match xmlNodeGetContent node with
      | some temp => { self with title := extractCDATA temp }
      | none => self
    else if name = "link" then
      match xmlNodeGetContent node with
      | some temp => { self with link := extractCDATA temp }
      | none => self
    else if name = "description" then
      match xmlNodeGetContent node with
      | some temp => { self with description := extractCDATA temp }
      | none => self
    else if name = "item" then
      { self with items := self.items ++ [RSSFeedItem.ofXMLNode node] }
    else self
  | _ => self

/-- One iteration of the outer loop of `RSSFeed::fetchFromURL`, on the child `channel` of the
root. -/
def RSSFeed.parseRootChild (self : RSSFeed) (channel : XmlNode) : RSSFeed :=
  match channel with
  | .element name children =>
    if name = "channel" then children.foldl RSSFeed.parseChannelChild self else self
  | _ => self

/-- The method `RSSFeed::fetchFromURL` from the call of `xmlReadMemory` on. The argument `doc` is
what `xmlReadMemory` returns for the fetched bytes: `none` for `NULL`, otherwise the root element
of the document. -/
def RSSFeed.fetchFromURL (self : RSSFeed) (doc : Option XmlNode) : Except Failure RSSFeed :=
  match doc with
  | none => .error .runtimeError
  | some root => .ok (root.children.foldl RSSFeed.parseRootChild self)

/-- The constructor `RSSFeed::RSSFeed(const string& url)`: clear every field, then fetch. -/
def RSSFeed.ofURL (doc : Option XmlNode) : Except Failure RSSFeed :=
  RSSFeed.empty.fetchFromURL doc

/-! ## Definitions that follow the specification's words -/

/-- The watermark as the specification words it: with `k = min(maxCount, len(items))`, the GUIDs
of `items[k-1], ..., items[0]` from the bottom of the stack to its top, so that the stack read
from the top down is the GUIDs of the first `k` items. -/
def captureWatermarkSpec (feed : RSSFeed) (maxCount : Int) : GuidStack :=
  (feed.items.take (min maxCount.toNat feed.items.length)).map RSSFeedItem.guid

/-- Whether a node is an element whose tag name is one of `tags`. -/
def XmlNode.isElementNamed (tags : List String) : XmlNode → Bool
  | .element name _ => tags.contains name
  | _ => false

/-- The tag name of an element; `none` for any other node. -/
def XmlNode.tagName : XmlNode → Option String
  | .element name _ => some name
  | _ => none

/-- The value that last-value-wins gives a singular field: `extractCDATA` of the text content of
the last element among `nodes` whose tag name is one of `tags`, and `dflt` when there is none. -/
def lastFieldValue (tags : List String) (nodes : List XmlNode) (dflt : String) : String :=
  match (nodes.filter (XmlNode.isElementNamed tags)).getLast? with
  | some node => extractCDATA node.innerText
  | none => dflt

/-- The categories of an item as the specification words them: `extractCDATA` of the content of
every `category` element among `nodes`, in document order. -/
def categoryValues (nodes : List XmlNode) : List String :=
  (nodes.filter (XmlNode.isElementNamed ["category"])).map fun node => extractCDATA node.innerText

/-- The items of a feed as the specification words them: the item parser's result for every
`item` element among `nodes`, in document order. -/
def itemValues (nodes : List XmlNode) : List RSSFeedItem :=
  (nodes.filter (XmlNode.isElementNamed ["item"])).map RSSFeedItem.ofXMLNode

/-- That a string holds the opener `<![CDATA[` and, somewhere after it, the terminator `]]>`. -/
def ContainsCDATAWrapper (input : String) : Prop :=
  ∃ before inner after : List Char,
    input.data = before ++ cdataOpen ++ inner ++ cdataClose ++ after

/-- The children of the `channel` elements among `nodes` (the children of the root), in document
order; when there is one `channel` element these are its children. -/
def channelNodes : List XmlNode → List XmlNode
  | [] => []
  | node :: rest =>
    if node.isElementNamed ["channel"] then node.children ++ channelNodes rest
    else channelNodes rest

/-- The feed of one `channel` element as the specification words it: the metadata and the items
of that element alone. -/
def feedOfChannel (channelChildren : List XmlNode) : RSSFeed :=
  { title := lastFieldValue ["title"] channelChildren ""
    link := lastFieldValue ["link"] channelChildren ""
    description := lastFieldValue ["description"] channelChildren ""
    items := itemValues channelChildren }

/-! ## Concrete inputs for the parsers -/

/-- The children `<author>X</author><creator>Y</creator>` of an item. -/
def authorThenCreator : List XmlNode :=
  [.element "author" [.text "X"], .element "creator" [.text "Y"]]

/-- The children `<creator>Y</creator><author>X</author>` of an item. -/
def creatorThenAuthor : List XmlNode :=
  [.element "creator" [.text "Y"], .element "author" [.text "X"]]

/-- The children `<title>T</title><guid>g1</guid>` of an item. -/
def titleThenGuid : List XmlNode :=
  [.element "title" [.text "T"], .element "guid" [.text "g1"]]

/-- The children `<guid>g1</guid><title>T</title>` of an item. -/
def guidThenTitle : List XmlNode :=
  [.element "guid" [.text "g1"], .element "title" [.text "T"]]

/-- An item with three `category` children, two of them equal, among a text node, a comment,
a `title` and an element with an unknown tag. -/
def itemWithThreeCategories : XmlNode :=
  .element "item"
    [.text "\n", .element "category" [.text "news"], .comment "c",
     .element "title" [.text "T"], .element "category" [.cdata "tech"],
     .element "enclosure" [], .element "category" [.text "news"]]

/-- The document `<rss><channel><title>Example</title><item><title><![CDATA[Hello]]></title>
<guid>g1</guid></item></channel></rss>`, with a line break before the channel. -/
def exampleDocument : XmlNode :=
  .element "rss"
    [.text "\n",
     .element "channel"
       [.element "title" [.text "Example"],
        .element "item" [.element "title" [.cdata "Hello"], .element "guid" [.text "g1"]]]]

/-- The children `<title>First</title><item><guid>g1</guid></item>` of a channel. -/
def firstChannelChildren : List XmlNode :=
  [.element "title" [.text "First"], .element "item" [.element "guid" [.text "g1"]]]

/-- The children `<title>Second</title><item><guid>g2</guid></item>` of a channel. -/
def secondChannelChildren : List XmlNode :=
  [.element "title" [.text "Second"], .element "item" [.element "guid" [.text "g2"]]]

/-- A document whose root has two `channel` children. -/
def twoChannelDocument : XmlNode :=
  .element "rss"
    [.element "channel" firstChannelChildren, .element "channel" secondChannelChildren]

/-- A document whose root has a `title` and an `item` child but no `channel` child. -/
def noChannelDocument : XmlNode :=
  .element "feed"
    [.text "\n", .element "title" [.text "T"], .element "item" [.element "guid" [.text "g1"]]]

/-- The document `<rss></rss>`. -/
def emptyRootDocument : XmlNode := .element "rss" []

/-! ## Concrete inputs for the novelty engine -/

/-- An item with the given GUID and every other field empty. -/
def itemWithGuid (guid : String) : RSSFeedItem := { RSSFeedItem.empty with guid := guid }

/-- A feed of three items with the GUIDs `a`, `b`, `c`, in document order. -/
def feedABC : RSSFeed :=
  { RSSFeed.empty with items := [itemWithGuid "a", itemWithGuid "b", itemWithGuid "c"] }

/-- A feed of seven items with the GUIDs `g1`, ..., `g7`, in document order. -/
def feedSeven : RSSFeed :=
  { RSSFeed.empty with
    items := ["g1", "g2", "g3", "g4", "g5", "g6", "g7"].map itemWithGuid }

/-- The GUID of the item at position `i` of `feedOfSize`: the letter `g` written `i + 1` times. -/
def guidOfIndex (i : Nat) : String := String.mk (List.replicate (i + 1) 'g')

/-- A feed of `n` items with pairwise distinct GUIDs. -/
def feedOfSize (n : Nat) : RSSFeed :=
  { RSSFeed.empty with items := (List.range n).map fun i => itemWithGuid (guidOfIndex i) }

/-- A stack holding `a`, `b`, `a` from top to bottom. -/
def stackABA : GuidStack := ["a", "b", "a"]

/-- A stack holding `b`, `a` from top to bottom. -/
def stackBA : GuidStack := ["b", "a"]

/-! ## The novelty engine: auxiliary facts -/

theorem mem_insertKey (s : GuidSet) (x y : String) :
    y ∈ s.insertKey x ↔ y = x ∨ y ∈ s := by
  unfold GuidSet.insertKey
  split
  · constructor
    · intro h; exact Or.inr h
    · rintro (h | h)
      · subst h; assumption
      · exact h
  · simp

theorem mem_buildExistingSet (stack : GuidStack) :
    ∀ (set : GuidSet) (y : String), y ∈ buildExistingSet stack set ↔ y ∈ stack ∨ y ∈ set := by
  induction stack with
  | nil => intro set y; simp [buildExistingSet]
  | cons top rest ih =>
    intro set y
    simp only [buildExistingSet, ih, mem_insertKey, List.mem_cons]
    tauto

theorem findIsEnd_buildExistingSet (stack : GuidStack) (y : String) :
    (buildExistingSet stack []).findIsEnd y = decide (y ∉ stack) := by
  have h := mem_buildExistingSet stack [] y
  simp only [List.not_mem_nil, or_false] at h
  simp [GuidSet.findIsEnd, h]

theorem collectNewItems_eq (set : GuidSet) (items : List RSSFeedItem) :
    ∀ newItems, collectNewItems set items newItems =
      newItems ++ items.filter (fun item => set.findIsEnd item.guid) := by
  induction items with
  | nil => intro newItems; simp [collectNewItems]
  | cons item rest ih =>
    intro newItems
    by_cases h : set.findIsEnd item.guid = true
    · simp [collectNewItems, h, ih]
    · simp [collectNewItems, h, ih]

theorem extractNewRSSFeedItems_eq (feed : RSSFeed) (existingGUIDs : GuidStack)
    (newItems : List RSSFeedItem) :
    extractNewRSSFeedItems (some feed) existingGUIDs newItems =
      .ok (newItems ++ feed.items.filter (fun item => decide (item.guid ∉ existingGUIDs))) := by
  simp only [extractNewRSSFeedItems, collectNewItems_eq, findIsEnd_buildExistingSet]

theorem getRSSFeedGUIDsLoop_eq (items : List RSSFeedItem) (maxCount : Int) :
    ∀ (j : Nat) (count : Int) (stack : GuidStack), j ≤ items.length →
      getRSSFeedGUIDsLoop items maxCount j count stack =
        .ok ((((items.take j).drop (j - (maxCount - count).toNat)).map RSSFeedItem.guid)
          ++ stack) := by
  intro j
  induction j with
  | zero => intro count stack _; simp [getRSSFeedGUIDsLoop]
  | succ j ih =>
    intro count stack hj
    have hlt : j < items.length := hj
    by_cases hc : count < maxCount
    · have hget : items[j]? = some items[j] := List.getElem?_eq_getElem hlt
      have e1 : j + 1 - (maxCount - count).toNat = j - (maxCount - (count + 1)).toNat := by omega
      have e2 : j - (maxCount - (count + 1)).toNat ≤ (items.take j).length := by
        rw [List.length_take]; omega
      simp only [getRSSFeedGUIDsLoop, hc, if_true, hget, GuidStack.push]
      rw [ih (count + 1) _ (Nat.le_of_lt hlt), e1, List.take_succ, hget]
      simp only [Option.toList_some]
      rw [List.drop_append_of_le_length e2]
      simp
    · have e1 : j + 1 - (maxCount - count).toNat = j + 1 := by omega
      simp only [getRSSFeedGUIDsLoop, hc, if_false, e1]
      simp [List.drop_eq_nil_iff]

/-- What `getRSSFeedGUIDs` pushes: the GUIDs of the last `maxCount` items of the feed, the
earliest of them on top. -/
theorem getRSSFeedGUIDs_eq (feed : RSSFeed) (stack : GuidStack) (maxCount : Int) :
    getRSSFeedGUIDs (some feed) stack maxCount =
      .ok (((feed.items.drop (feed.items.length - maxCount.toNat)).map RSSFeedItem.guid)
        ++ stack) := by
  simp only [getRSSFeedGUIDs]
  rw [getRSSFeedGUIDsLoop_eq _ _ _ _ _ (Nat.le_refl _)]
  simp

theorem reverseLoop_eq (existingGUIDs : GuidStack) :
    ∀ reverseStack, reverseLoop existingGUIDs reverseStack =
      ([], existingGUIDs.reverse ++ reverseStack) := by
  induction existingGUIDs with
  | nil => intro r; simp [reverseLoop]
  | cons top rest ih => intro r; simp [reverseLoop, ih, GuidStack.push]

theorem restoreLoop_eq (n : Nat) :
    ∀ (existingGUIDs reverseStack : GuidStack), n ≤ reverseStack.length →
      restoreLoop n existingGUIDs reverseStack =
        .ok ((reverseStack.take n).reverse ++ existingGUIDs, reverseStack.drop n) := by
  induction n with
  | zero => intro e r _; simp [restoreLoop]
  | succ n ih =>
    intro e r hn
    cases r with
    | nil => simp at hn
    | cons top rest =>
      have hn2 : n ≤ rest.length := by simpa using hn
      simp only [restoreLoop, GuidStack.top, GuidStack.pop, GuidStack.push]
      show restoreLoop n (top :: e) rest = _
      rw [ih _ _ hn2]
      simp

theorem drop_length_sub_sub {α : Type} (l : List α) (r : Nat) :
    l.drop (l.length - (l.length - r)) = l.drop r := by
  by_cases h : r ≤ l.length
  · congr 1; omega
  · have h1 : l.length - (l.length - r) = l.length := by omega
    rw [h1, List.drop_length, List.drop_eq_nil_of_le (by omega)]

theorem reverseAndRestore_eq (retain : Nat) (existingGUIDs : GuidStack) :
    reverseAndRestore (retain : Int) existingGUIDs = .ok (existingGUIDs.drop retain) := by
  have hlen : (((existingGUIDs.length : Nat) : Int) - (retain : Int)).toNat
      = existingGUIDs.length - retain := by omega
  have hle : existingGUIDs.length - retain ≤ (existingGUIDs.reverse ++ []).length := by
    simp
  simp only [reverseAndRestore, reverseLoop_eq, hlen]
  show (do let r ← restoreLoop _ [] (existingGUIDs.reverse ++ []); pure r.1) = _
  rw [restoreLoop_eq _ _ _ hle]
  simp [List.reverse_take, drop_length_sub_sub]

theorem filter_guid_not_mem_append (a b : List RSSFeedItem)
    (h : ((a ++ b).map RSSFeedItem.guid).Nodup) :
    (a ++ b).filter (fun item => decide (item.guid ∉ b.map RSSFeedItem.guid)) = a := by
  rw [List.map_append, List.nodup_append] at h
  obtain ⟨_, _, hdisj⟩ := h
  have ha : a.filter (fun item => decide (item.guid ∉ b.map RSSFeedItem.guid)) = a := by
    rw [List.filter_eq_self]
    intro x hx
    have hxa : x.guid ∈ a.map RSSFeedItem.guid := List.mem_map_of_mem _ hx
    simp only [decide_eq_true_eq]
    exact fun hmem => hdisj hxa hmem
  have hb : b.filter (fun item => decide (item.guid ∉ b.map RSSFeedItem.guid)) = [] := by
    rw [List.filter_eq_nil_iff]
    intro x hx
    have hxb : x.guid ∈ b.map RSSFeedItem.guid := List.mem_map_of_mem _ hx
    simpa using List.mem_map.mp hxb
  rw [List.filter_append, ha, hb, List.append_nil]

theorem filter_guid_not_mem_drop (items : List RSSFeedItem) (d : Nat)
    (h : (items.map RSSFeedItem.guid).Nodup) :
    items.filter (fun item => decide (item.guid ∉ (items.drop d).map RSSFeedItem.guid))
      = items.take d := by
  have key := filter_guid_not_mem_append (items.take d) (items.drop d)
    (by rw [List.take_append_drop]; exact h)
  rw [List.take_append_drop] at key
  exact key

/-- What `main` reports for a feed with pairwise distinct GUIDs, whatever its size. -/
theorem mainNewItems_of_nodup (feed : RSSFeed)
    (h : (feed.items.map RSSFeedItem.guid).Nodup) :
    mainNewItems feed = .ok (feed.items.take (feed.items.length - 128 + 5)) := by
  have hcap := getRSSFeedGUIDs_eq feed [] MAX_FETCH_GUIDS
  have e1 : MAX_FETCH_GUIDS.toNat = 128 := rfl
  rw [e1, List.append_nil] at hcap
  have hcut := reverseAndRestore_eq 5
    ((feed.items.drop (feed.items.length - 128)).map RSSFeedItem.guid)
  rw [← List.map_drop, List.drop_drop] at hcut
  have hnew := extractNewRSSFeedItems_eq feed
    ((feed.items.drop (feed.items.length - 128 + 5)).map RSSFeedItem.guid) []
  rw [List.nil_append, filter_guid_not_mem_drop _ _ h] at hnew
  have h5 : reverseAndRestore 5 = reverseAndRestore ((5 : Nat) : Int) := rfl
  unfold mainNewItems
  rw [hcap]
  simp only [bind, Except.bind]
  rw [h5, hcut]
  simp only []
  exact hnew

theorem guidOfIndex_injective : Function.Injective guidOfIndex := by
  intro i j hij
  have h := congrArg (fun s => s.data.length) hij
  simpa [guidOfIndex] using h

theorem feedOfSize_nodup (n : Nat) : ((feedOfSize n).items.map RSSFeedItem.guid).Nodup := by
  have e : (feedOfSize n).items.map RSSFeedItem.guid = (List.range n).map guidOfIndex := by
    simp [feedOfSize, itemWithGuid, Function.comp_def]
  rw [e]
  exact (List.nodup_range n).map guidOfIndex_injective

theorem feedOfSize_length (n : Nat) : (feedOfSize n).items.length = n := by
  simp [feedOfSize]

/-! ## The novelty engine: the claims -/

/-- C1: for every feed, every watermark stack and every initial `newItems`,
`extractNewRSSFeedItems` returns normally and leaves `newItems` equal to its initial contents
followed by exactly the items of the feed whose GUID equals no string of the stack, in document
order. The test looks at the GUID of the item alone, so every occurrence of a repeated GUID is
decided on its own; with an empty stack every item of the feed is appended. -/
theorem extractNewRSSFeedItems_appends_unseen (feed : RSSFeed) (existingGUIDs : GuidStack)
    (newItems : List RSSFeedItem) :
    extractNewRSSFeedItems (some feed) existingGUIDs newItems =
        .ok (newItems ++ feed.items.filter (fun item => decide (item.guid ∉ existingGUIDs)))
      ∧ extractNewRSSFeedItems (some feed) [] newItems = .ok (newItems ++ feed.items) := by
  refine ⟨extractNewRSSFeedItems_eq feed existingGUIDs newItems, ?_⟩
  rw [extractNewRSSFeedItems_eq]
  simp

/-- C2, at the input where the code leaves the claim: on the feed with the GUIDs `a`, `b`, `c`,
an empty stack and `maxCount = 2`, `getRSSFeedGUIDs` leaves the stack holding `c`, `b` from bottom
to top (the last two items, `b` on top), whereas the first two items stored oldest-to-newest are
`b`, `a` from bottom to top (`a` on top). -/
theorem getRSSFeedGUIDs_captures_last_items :
    getRSSFeedGUIDs (some feedABC) [] 2 = .ok ["b", "c"]
      ∧ GuidStack.bottomToTop ["b", "c"] = ["c", "b"]
      ∧ captureWatermarkSpec feedABC 2 = ["a", "b"]
      ∧ GuidStack.bottomToTop (captureWatermarkSpec feedABC 2) = ["b", "a"] := by
  refine ⟨rfl, rfl, rfl, rfl⟩

/-- C3: for every captured stack and every retain count `r` (so also the `5` of `main`), the
reverse-and-restore step returns normally, hence without `top` or `pop` on an empty stack, and
leaves the stack without its `r` top entries: read from bottom to top these are the first
`total - r` entries of the captured stack in their order, their number is `total - r` cut off at
zero, and the result is the empty stack whenever `total <= r`. -/
theorem reverseAndRestore_keeps_oldest (retain : Nat) (captured : GuidStack) :
    reverseAndRestore (retain : Int) captured = .ok (captured.drop retain)
      ∧ GuidStack.bottomToTop (captured.drop retain)
          = (GuidStack.bottomToTop captured).take (captured.length - retain)
      ∧ (captured.drop retain).length = captured.length - retain
      ∧ reverseAndRestore 5 captured = .ok (captured.drop 5)
      ∧ ∀ extra : Nat, reverseAndRestore ((captured.length + extra : Nat) : Int) captured = .ok [] := by
  refine ⟨reverseAndRestore_eq retain captured, ?_, ?_, reverseAndRestore_eq 5 captured, ?_⟩
  · simp [GuidStack.bottomToTop, List.reverse_drop]
  · simp
  · intro extra
    rw [reverseAndRestore_eq]
    simp

/-- C4 fails on a feed of 129 items with pairwise distinct GUIDs: `main` reports the first six
items, not the first five. -/
theorem mainNewItems_reports_six_of_129 :
    ((feedOfSize 129).items.map RSSFeedItem.guid).Nodup
      ∧ (feedOfSize 129).items.length = 129
      ∧ mainNewItems (feedOfSize 129) = .ok ((feedOfSize 129).items.take 6)
      ∧ mainNewItems (feedOfSize 129) ≠ .ok ((feedOfSize 129).items.take (min 5 129)) := by
  have hmain := mainNewItems_of_nodup (feedOfSize 129) (feedOfSize_nodup 129)
  rw [feedOfSize_length] at hmain
  refine ⟨feedOfSize_nodup 129, feedOfSize_length 129, hmain, ?_⟩
  rw [hmain]
  intro h
  have hlen := congrArg List.length (Except.ok.inj h)
  simp [feedOfSize_length] at hlen

/-- C4, amended: for every feed of at most 128 items whose GUIDs are pairwise distinct, the
pipeline of `main` returns normally and reports exactly the first `min(5, n)` items of the feed,
in document order. -/
theorem mainNewItems_top_five (feed : RSSFeed)
    (hdistinct : (feed.items.map RSSFeedItem.guid).Nodup)
    (hsize : feed.items.length ≤ 128) :
    mainNewItems feed = .ok (feed.items.take (min 5 feed.items.length)) := by
  rw [mainNewItems_of_nodup feed hdistinct]
  have e : feed.items.length - 128 + 5 = 5 := by omega
  rw [e]
  congr 1
  rw [List.take_eq_take]
  omega

/-- The amended C4 on a feed of seven items. -/
theorem mainNewItems_top_five_witness :
    (feedSeven.items.map RSSFeedItem.guid).Nodup ∧ feedSeven.items.length ≤ 128
      ∧ mainNewItems feedSeven = .ok (feedSeven.items.take (min 5 feedSeven.items.length)) :=
  ⟨by decide, by decide, mainNewItems_top_five feedSeven (by decide) (by decide)⟩

/-! ## The CDATA extractor: auxiliary facts -/

theorem starRuns_sound {α : Type} (a : Atom) (k : List Char → List α) (x : α) :
    ∀ s : List Char, x ∈ starRuns a k s → ∃ taken rest, s = taken ++ rest ∧ x ∈ k rest := by
  intro s
  induction s with
  | nil => intro h; exact ⟨[], [], rfl, h⟩
  | cons c cs ih =>
    intro h
    unfold starRuns at h
    split at h
    · rcases List.mem_append.mp h with h1 | h2
      · obtain ⟨taken, rest, hs, hx⟩ := ih h1
        exact ⟨c :: taken, rest, by rw [hs]; rfl, hx⟩
      · exact ⟨[], c :: cs, rfl, h2⟩
    · exact ⟨[], c :: cs, rfl, h⟩

theorem runs_sound {α : Type} (x : α) :
    ∀ (ps : List Piece) (s : List Char) (k : List Char → List α),
      x ∈ runs ps s k → ∃ taken rest, s = taken ++ rest ∧ x ∈ k rest := by
  intro ps
  induction ps with
  | nil => intro s k h; exact ⟨[], s, rfl, h⟩
  | cons p ps ih =>
    intro s k h
    cases p with
    | one a =>
      cases s with
      | nil => simp [runs] at h
      | cons c cs =>
        simp only [runs] at h
        split at h
        · obtain ⟨taken, rest, hs, hx⟩ := ih cs k h
          exact ⟨c :: taken, rest, by rw [hs]; rfl, hx⟩
        · simp at h
    | star a =>
      simp only [runs] at h
      obtain ⟨taken, mid, hs, hx⟩ := starRuns_sound a _ x s h
      obtain ⟨taken2, rest, hs2, hx2⟩ := ih mid k hx
      exact ⟨taken ++ taken2, rest, by rw [hs, hs2, List.append_assoc], hx2⟩

theorem runs_litPieces {α : Type} (x : α) :
    ∀ (w s : List Char) (k : List Char → List α),
      x ∈ runs (litPieces w) s k → ∃ rest, s = w ++ rest ∧ x ∈ k rest := by
  intro w
  induction w with
  | nil => intro s k h; exact ⟨s, rfl, h⟩
  | cons c w ih =>
    intro s k h
    cases s with
    | nil => simp [litPieces, runs] at h
    | cons d ds =>
      simp only [litPieces, List.map_cons, runs, Atom.test] at h
      split at h
      · rename_i hdc
        have hdc2 : d = c := by simpa using hdc
        obtain ⟨rest, hs, hx⟩ := ih ds k h
        exact ⟨rest, by rw [hs, hdc2]; rfl, hx⟩
      · simp at h

/-- Every match found at the head of the input consists of the literal text before the group, the
captured text, the literal text after the group, and the input that is left. -/
theorem matchesAt_sound (o c : List Char) (grp : List Piece) (s : List Char)
    (m : List Char × List Char)
    (h : m ∈ matchesAt { pre := litPieces o, grp := grp, suf := litPieces c } s) :
    s = o ++ m.1 ++ c ++ m.2 := by
  unfold matchesAt at h
  obtain ⟨s1, hs1, h1⟩ := runs_litPieces m o s _ h
  obtain ⟨inner, s2, hs2, h2⟩ := runs_sound m grp s1 _ h1
  obtain ⟨s3, hs3, h3⟩ := runs_litPieces m c s2 _ h2
  have hm : m = (s1.take (s1.length - s2.length), s3) := by simpa using h3
  have htake : s1.take (s1.length - s2.length) = inner := by
    rw [hs2]; simp
  rw [hm, htake, hs1, hs2, hs3]
  simp

theorem searchFirst_sound (re : Regex) (g : List Char) :
    ∀ s : List Char, searchFirst re s = some g →
      ∃ before tail m, s = before ++ tail ∧ m ∈ matchesAt re tail ∧ m.1 = g := by
  intro s
  induction s with
  | nil =>
    intro h
    simp only [searchFirst] at h
    cases hm : matchesAt re [] with
    | nil => simp [hm] at h
    | cons m ms =>
      simp only [hm, List.head?_cons, Option.map_some', Option.some.injEq] at h
      exact ⟨[], [], m, rfl, by rw [hm]; exact List.mem_cons_self _ _, h⟩
  | cons c cs ih =>
    intro h
    simp only [searchFirst] at h
    cases hm : matchesAt re (c :: cs) with
    | nil =>
      simp only [hm] at h
      obtain ⟨before, tail, m, hs, hmem, hg⟩ := ih h
      exact ⟨c :: before, tail, m, by rw [hs]; rfl, hmem, hg⟩
    | cons m ms =>
      simp only [hm, Option.some.injEq] at h
      exact ⟨[], c :: cs, m, rfl, by rw [hm]; exact List.mem_cons_self _ _, h⟩

theorem longestMatch_mem (m : List Char × List Char) :
    ∀ ms : List (List Char × List Char), longestMatch ms = some m → m ∈ ms := by
  intro ms
  induction ms generalizing m with
  | nil => intro h; simp [longestMatch] at h
  | cons m1 ms ih =>
    intro h
    simp only [longestMatch] at h
    cases hl : longestMatch ms with
    | none =>
      simp only [hl, Option.some.injEq] at h
      rw [← h]; exact List.mem_cons_self _ _
    | some m2 =>
      simp only [hl] at h
      split at h
      · simp only [Option.some.injEq] at h
        rw [← h]; exact List.mem_cons_of_mem _ (ih m2 hl)
      · simp only [Option.some.injEq] at h
        rw [← h]; exact List.mem_cons_self _ _

theorem searchLongest_sound (re : Regex) (g : List Char) :
    ∀ s : List Char, searchLongest re s = some g →
      ∃ before tail m, s = before ++ tail ∧ m ∈ matchesAt re tail ∧ m.1 = g := by
  intro s
  induction s with
  | nil =>
    intro h
    simp only [searchLongest] at h
    cases hm : longestMatch (matchesAt re []) with
    | none => simp [hm] at h
    | some m =>
      simp only [hm, Option.map_some', Option.some.injEq] at h
      exact ⟨[], [], m, rfl, longestMatch_mem m _ hm, h⟩
  | cons c cs ih =>
    intro h
    simp only [searchLongest] at h
    cases hm : longestMatch (matchesAt re (c :: cs)) with
    | none =>
      simp only [hm] at h
      obtain ⟨before, tail, m, hs, hmem, hg⟩ := ih h
      exact ⟨c :: before, tail, m, by rw [hs]; rfl, hmem, hg⟩
    | some m =>
      simp only [hm, Option.some.injEq] at h
      exact ⟨[], c :: cs, m, rfl, longestMatch_mem m _ hm, h⟩

/-- A match of the `std::regex` pattern lies between an opener and a terminator of the input. -/
theorem searchFirst_cdata (s g : List Char) (h : searchFirst cdataRegexEcma s = some g) :
    ∃ before after, s = before ++ cdataOpen ++ g ++ cdataClose ++ after := by
  obtain ⟨before, tail, m, hs, hmem, hg⟩ := searchFirst_sound _ g s h
  have ht := matchesAt_sound cdataOpen cdataClose _ tail m hmem
  refine ⟨before, m.2, ?_⟩
  rw [hs, ht, hg]
  simp

/-- A match of the `regcomp` pattern lies between an opener and a terminator of the input. -/
theorem searchLongest_cdata (s g : List Char) (h : searchLongest cdataRegexPosix s = some g) :
    ∃ before after, s = before ++ cdataOpen ++ g ++ cdataClose ++ after := by
  obtain ⟨before, tail, m, hs, hmem, hg⟩ := searchLongest_sound _ g s h
  have ht := matchesAt_sound cdataOpen cdataClose _ tail m hmem
  refine ⟨before, m.2, ?_⟩
  rw [hs, ht, hg]
  simp

theorem extractCDATA_of_no_wrapper (input : String) (h : ¬ ContainsCDATAWrapper input) :
    extractCDATA input = input := by
  unfold extractCDATA
  cases hs : searchFirst cdataRegexEcma input.data with
  | none => rfl
  | some g =>
    exfalso
    obtain ⟨before, after, hd⟩ := searchFirst_cdata _ _ hs
    exact h ⟨before, g, after, hd⟩

theorem extractCDATA_c_of_no_wrapper (input : String) (h : ¬ ContainsCDATAWrapper input) :
    extractCDATA_c input = input := by
  unfold extractCDATA_c
  cases hs : searchLongest cdataRegexPosix input.data with
  | none => rfl
  | some g =>
    exfalso
    obtain ⟨before, after, hd⟩ := searchLongest_cdata _ _ hs
    exact h ⟨before, g, after, hd⟩

theorem plain_text_no_wrapper : ¬ ContainsCDATAWrapper "plain text" := by
  rintro ⟨before, inner, after, h⟩
  have hmem : '<' ∈ "plain text".data := by
    rw [h]; simp [cdataOpen]
  revert hmem
  decide

/-! ## The CDATA extractor: the claims -/

/-- C5, at the input where the code leaves the claim: both renditions of `extractCDATA` return
`<![CDATA[hello]]>` unchanged instead of `hello`, because the pattern asks for a `]` inside the
captured text; they do unwrap `<![CDATA[a]b]]>` to `a]b`. -/
theorem extractCDATA_hello_not_unwrapped :
    extractCDATA "<![CDATA[hello]]>" = "<![CDATA[hello]]>"
      ∧ extractCDATA_c "<![CDATA[hello]]>" = "<![CDATA[hello]]>"
      ∧ extractCDATA "<![CDATA[a]b]]>" = "a]b"
      ∧ extractCDATA_c "<![CDATA[a]b]]>" = "a]b" := by
  refine ⟨by decide, by decide, by decide, by decide⟩

/-- C6: for every input that does not hold the opener `<![CDATA[` followed somewhere later by the
terminator `]]>`, both renditions of `extractCDATA` return the input unchanged. -/
theorem extractCDATA_unchanged_without_wrapper (input : String)
    (h : ¬ ContainsCDATAWrapper input) :
    extractCDATA input = input ∧ extractCDATA_c input = input :=
  ⟨extractCDATA_of_no_wrapper input h, extractCDATA_c_of_no_wrapper input h⟩

/-- C6 on the input `plain text`. -/
theorem extractCDATA_unchanged_without_wrapper_witness :
    ¬ ContainsCDATAWrapper "plain text"
      ∧ extractCDATA "plain text" = "plain text" ∧ extractCDATA_c "plain text" = "plain text" :=
  ⟨plain_text_no_wrapper,
    extractCDATA_unchanged_without_wrapper "plain text" plain_text_no_wrapper⟩

/-! ## The parsers: auxiliary facts -/

theorem xmlNodeGetContent_element (name : String) (children : List XmlNode) :
    xmlNodeGetContent (.element name children) = some (XmlNode.element name children).innerText := by
  simp [xmlNodeGetContent, XmlNode.innerText]

theorem isElementNamed_element (tags : List String) (name : String) (children : List XmlNode) :
    (XmlNode.element name children).isElementNamed tags = true ↔ name ∈ tags := by
  simp [XmlNode.isElementNamed]

/-- One iteration of the item loop, field by field. -/
theorem parseChild_eq (self : RSSFeedItem) (node : XmlNode) :
    self.parseChild node =
      { title := if node.isElementNamed ["title"] then extractCDATA node.innerText
          else self.title
        link := if node.isElementNamed ["link"] then extractCDATA node.innerText else self.link
        guid := if node.isElementNamed ["guid"] then extractCDATA node.innerText else self.guid
        description := if node.isElementNamed ["description"] then extractCDATA node.innerText
          else self.description
        pubDate := if node.isElementNamed ["pubDate"] then extractCDATA node.innerText
          else self.pubDate
        author := if node.isElementNamed ["author", "creator"] then extractCDATA node.innerText
          else self.author
        categories := if node.isElementNamed ["category"]
          then self.categories ++ [extractCDATA node.innerText] else self.categories } := by
  cases node with
  | element name children =>
    simp only [RSSFeedItem.parseChild, xmlNodeGetContent_element, isElementNamed_element,
      List.mem_cons, List.mem_singleton, List.not_mem_nil, or_false]
    split_ifs <;> simp_all
  | _ => rfl

theorem parseChild_title (self : RSSFeedItem) (node : XmlNode) :
    (self.parseChild node).title =
      if node.isElementNamed ["title"] then extractCDATA node.innerText else self.title := by
  rw [parseChild_eq]

theorem parseChild_link (self : RSSFeedItem) (node : XmlNode) :
    (self.parseChild node).link =
      if node.isElementNamed ["link"] then extractCDATA node.innerText else self.link := by
  rw [parseChild_eq]

theorem parseChild_guid (self : RSSFeedItem) (node : XmlNode) :
    (self.parseChild node).guid =
      if node.isElementNamed ["guid"] then extractCDATA node.innerText else self.guid := by
  rw [parseChild_eq]

theorem parseChild_description (self : RSSFeedItem) (node : XmlNode) :
    (self.parseChild node).description =
      if node.isElementNamed ["description"] then extractCDATA node.innerText
      else self.description := by
  rw [parseChild_eq]

theorem parseChild_pubDate (self : RSSFeedItem) (node : XmlNode) :
    (self.parseChild node).pubDate =
      if node.isElementNamed ["pubDate"] then extractCDATA node.innerText else self.pubDate := by
  rw [parseChild_eq]

theorem parseChild_author (self : RSSFeedItem) (node : XmlNode) :
    (self.parseChild node).author =
      if node.isElementNamed ["author", "creator"] then extractCDATA node.innerText
      else self.author := by
  rw [parseChild_eq]

theorem parseChild_categories (self : RSSFeedItem) (node : XmlNode) :
    (self.parseChild node).categories =
      if node.isElementNamed ["category"] then self.categories ++ [extractCDATA node.innerText]
      else self.categories := by
  rw [parseChild_eq]

/-- A loop whose step overwrites a field on every matching node ends with the value of the last
matching node. -/
theorem foldl_lastFieldValue {σ : Type} (step : σ → XmlNode → σ) (field : σ → String)
    (tags : List String)
    (hstep : ∀ s node, field (step s node) =
      if node.isElementNamed tags then extractCDATA node.innerText else field s) :
    ∀ (nodes : List XmlNode) (s : σ),
      field (nodes.foldl step s) = lastFieldValue tags nodes (field s) := by
  intro nodes
  induction nodes using List.reverseRecOn with
  | nil => intro s; simp [lastFieldValue]
  | append_singleton nodes node ih =>
    intro s
    rw [List.foldl_append, List.foldl_cons, List.foldl_nil, hstep, ih]
    by_cases hn : node.isElementNamed tags = true
    · simp [lastFieldValue, List.filter_append, hn]
    · simp [lastFieldValue, List.filter_append, hn]

/-- A loop whose step appends to a list on every matching node ends with one entry for each
matching node, in order. -/
theorem foldl_collect {σ β : Type} (step : σ → XmlNode → σ) (field : σ → List β)
    (p : XmlNode → Bool) (g : XmlNode → β)
    (hstep : ∀ s node, field (step s node) = if p node then field s ++ [g node] else field s) :
    ∀ (nodes : List XmlNode) (s : σ),
      field (nodes.foldl step s) = field s ++ (nodes.filter p).map g := by
  intro nodes
  induction nodes with
  | nil => intro s; simp
  | cons node rest ih =>
    intro s
    rw [List.foldl_cons, ih, hstep]
    by_cases hn : p node = true
    · simp [hn]
    · simp [hn]

theorem item_eq_of_fields (a b : RSSFeedItem) (h1 : a.title = b.title)
    (h2 : a.link = b.link) (h3 : a.guid = b.guid) (h4 : a.description = b.description)
    (h5 : a.pubDate = b.pubDate) (h6 : a.author = b.author)
    (h7 : a.categories = b.categories) : a = b := by
  cases a; cases b; simp_all

/-- The item that `parseFromXMLNode` leaves, field by field. -/
theorem parseFromXMLNode_eq (self : RSSFeedItem) (name : String) (children : List XmlNode) :
    self.parseFromXMLNode (.element name children) =
      { title := lastFieldValue ["title"] children self.title
        link := lastFieldValue ["link"] children self.link
        guid := lastFieldValue ["guid"] children self.guid
        description := lastFieldValue ["description"] children self.description
        pubDate := lastFieldValue ["pubDate"] children self.pubDate
        author := lastFieldValue ["author", "creator"] children self.author
        categories := self.categories ++ categoryValues children } := by
  apply item_eq_of_fields
  · exact foldl_lastFieldValue _ RSSFeedItem.title _ parseChild_title children self
  · exact foldl_lastFieldValue _ RSSFeedItem.link _ parseChild_link children self
  · exact foldl_lastFieldValue _ RSSFeedItem.guid _ parseChild_guid children self
  · exact foldl_lastFieldValue _ RSSFeedItem.description _ parseChild_description children self
  · exact foldl_lastFieldValue _ RSSFeedItem.pubDate _ parseChild_pubDate children self
  · exact foldl_lastFieldValue _ RSSFeedItem.author _ parseChild_author children self
  · exact foldl_collect _ RSSFeedItem.categories _ _ parseChild_categories children self

/-! ## The item parser: the claims -/

/-- C7: for every item element, the item that the constructor builds with `parseFromXMLNode` has
`title`, `link`, `guid`, `description` and `pubDate` equal to `extractCDATA` of the content of
the last child element with that tag name, `author` equal to `extractCDATA` of the content of
the last child element named `author` or `creator`, and the empty string where no child matches;
called on an item that already has values, `parseFromXMLNode` keeps the old value there. Two
`title` children `A`, `B` give the title `B`, and an element without children gives the item with
every field empty. -/
theorem parseFromXMLNode_last_value_wins (name : String) (children : List XmlNode) :
    (RSSFeedItem.ofXMLNode (.element name children)).title = lastFieldValue ["title"] children ""
      ∧ (RSSFeedItem.ofXMLNode (.element name children)).link
          = lastFieldValue ["link"] children ""
      ∧ (RSSFeedItem.ofXMLNode (.element name children)).guid
          = lastFieldValue ["guid"] children ""
      ∧ (RSSFeedItem.ofXMLNode (.element name children)).description
          = lastFieldValue ["description"] children ""
      ∧ (RSSFeedItem.ofXMLNode (.element name children)).pubDate
          = lastFieldValue ["pubDate"] children ""
      ∧ (RSSFeedItem.ofXMLNode (.element name children)).author
          = lastFieldValue ["author", "creator"] children ""
      ∧ (∀ self : RSSFeedItem,
          (self.parseFromXMLNode (.element name children)).title
              = lastFieldValue ["title"] children self.title
            ∧ (self.parseFromXMLNode (.element name children)).author
              = lastFieldValue ["author", "creator"] children self.author)
      ∧ (RSSFeedItem.ofXMLNode (.element "item"
            [.element "title" [.text "A"], .element "title" [.text "B"]])).title = "B"
      ∧ RSSFeedItem.ofXMLNode (.element name []) = RSSFeedItem.empty := by
  have h := parseFromXMLNode_eq RSSFeedItem.empty name children
  refine ⟨?_, ?_, ?_, ?_, ?_, ?_, ?_, by decide, rfl⟩
  · rw [RSSFeedItem.ofXMLNode, h]; rfl
  · rw [RSSFeedItem.ofXMLNode, h]; rfl
  · rw [RSSFeedItem.ofXMLNode, h]; rfl
  · rw [RSSFeedItem.ofXMLNode, h]; rfl
  · rw [RSSFeedItem.ofXMLNode, h]; rfl
  · rw [RSSFeedItem.ofXMLNode, h]; rfl
  · intro self
    rw [parseFromXMLNode_eq]
    exact ⟨rfl, rfl⟩

theorem perm_eq_of_length_le_one {α : Type} (l1 l2 : List α) (hperm : l1.Perm l2)
    (hlen : l1.length ≤ 1) : l1 = l2 := by
  cases l1 with
  | nil => exact (List.Perm.nil_eq hperm)
  | cons a t =>
    cases t with
    | nil => exact (List.singleton_perm.mp hperm)
    | cons b t => simp at hlen

theorem tagName_mem_of_named (tags : List String) (nodes : List XmlNode) (x : XmlNode)
    (hx : x ∈ nodes) (hnamed : x.isElementNamed tags = true) :
    ∃ n, n ∈ tags ∧ n ∈ nodes.filterMap XmlNode.tagName := by
  cases x with
  | element n ch =>
    refine ⟨n, (isElementNamed_element tags n ch).mp hnamed, ?_⟩
    exact List.mem_filterMap.mpr ⟨_, hx, rfl⟩
  | _ => simp [XmlNode.isElementNamed] at hnamed

/-- When tag names do not repeat and at most one of `tags` occurs, at most one node matches. -/
theorem filter_named_length_le_one (tags : List String) :
    ∀ nodes : List XmlNode, (nodes.filterMap XmlNode.tagName).Nodup →
      (∀ t1 ∈ tags, ∀ t2 ∈ tags, t1 ∈ nodes.filterMap XmlNode.tagName →
        t2 ∈ nodes.filterMap XmlNode.tagName → t1 = t2) →
      (nodes.filter (XmlNode.isElementNamed tags)).length ≤ 1 := by
  intro nodes
  induction nodes with
  | nil => intro _ _; simp
  | cons node rest ih =>
    intro hnodup hone
    by_cases hnode : node.isElementNamed tags = true
    · cases node with
      | element n ch =>
        have hn : n ∈ tags := (isElementNamed_element tags n ch).mp hnode
        have hnames : (XmlNode.element n ch :: rest).filterMap XmlNode.tagName
            = n :: rest.filterMap XmlNode.tagName := by
          simp [List.filterMap_cons, XmlNode.tagName]
        rw [hnames] at hnodup hone
        have hnotin : n ∉ rest.filterMap XmlNode.tagName := (List.nodup_cons.mp hnodup).1
        have hrest : rest.filter (XmlNode.isElementNamed tags) = [] := by
          rw [List.filter_eq_nil_iff]
          intro x hx hxn
          obtain ⟨n2, hn2, hmem⟩ := tagName_mem_of_named tags rest x hx hxn
          have heq : n = n2 :=
            hone n hn n2 hn2 (List.mem_cons_self _ _) (List.mem_cons_of_mem _ hmem)
          exact hnotin (heq ▸ hmem)
        simp [List.filter_cons, hnode, hrest]
      | _ => simp [XmlNode.isElementNamed] at hnode
    · have hsub : ∀ t, t ∈ rest.filterMap XmlNode.tagName →
          t ∈ (node :: rest).filterMap XmlNode.tagName := by
        intro t ht
        obtain ⟨x, hx, hxt⟩ := List.mem_filterMap.mp ht
        exact List.mem_filterMap.mpr ⟨x, List.mem_cons_of_mem _ hx, hxt⟩
      have hnodup2 : (rest.filterMap XmlNode.tagName).Nodup := by
        cases node with
        | element n ch =>
          have hnames : (XmlNode.element n ch :: rest).filterMap XmlNode.tagName
              = n :: rest.filterMap XmlNode.tagName := by
            simp [List.filterMap_cons, XmlNode.tagName]
          rw [hnames] at hnodup
          exact (List.nodup_cons.mp hnodup).2
        | _ => simpa [List.filterMap_cons, XmlNode.tagName] using hnodup
      have := ih hnodup2 (fun t1 h1 t2 h2 m1 m2 => hone t1 h1 t2 h2 (hsub t1 m1) (hsub t2 m2))
      simpa [List.filter_cons, hnode] using this

theorem filter_named_eq_of_perm (tags : List String) (nodes1 nodes2 : List XmlNode)
    (hperm : nodes1.Perm nodes2) (hnodup : (nodes1.filterMap XmlNode.tagName).Nodup)
    (hone : ∀ t1 ∈ tags, ∀ t2 ∈ tags, t1 ∈ nodes1.filterMap XmlNode.tagName →
      t2 ∈ nodes1.filterMap XmlNode.tagName → t1 = t2) :
    nodes1.filter (XmlNode.isElementNamed tags) = nodes2.filter (XmlNode.isElementNamed tags) :=
  perm_eq_of_length_le_one _ _ (hperm.filter _) (filter_named_length_le_one tags nodes1 hnodup hone)

theorem single_tag_unique (tag : String) (names : List String) :
    ∀ t1 ∈ [tag], ∀ t2 ∈ [tag], t1 ∈ names → t2 ∈ names → t1 = t2 := by
  intro t1 h1 t2 h2 _ _
  rw [List.mem_singleton.mp h1, List.mem_singleton.mp h2]

/-! ## The item parser: order of the children and categories -/

/-- C8 fails when `author` and `creator` both occur: the two orders of
`<author>X</author><creator>Y</creator>` are permutations of one another, no tag name occurs
twice, and the items differ (`author` is `Y` for one order and `X` for the other). -/
theorem parseFromXMLNode_author_creator_order :
    authorThenCreator.Perm creatorThenAuthor
      ∧ (authorThenCreator.filterMap XmlNode.tagName).Nodup
      ∧ (creatorThenAuthor.filterMap XmlNode.tagName).Nodup
      ∧ (RSSFeedItem.ofXMLNode (.element "item" authorThenCreator)).author = "Y"
      ∧ (RSSFeedItem.ofXMLNode (.element "item" creatorThenAuthor)).author = "X"
      ∧ RSSFeedItem.ofXMLNode (.element "item" authorThenCreator)
          ≠ RSSFeedItem.ofXMLNode (.element "item" creatorThenAuthor) := by
  refine ⟨List.Perm.swap _ _ _, by decide, by decide, by decide, by decide, by decide⟩

/-- C8, amended: for every two lists of item children that are permutations of one another, in
which no tag name occurs more than once and `author` and `creator` do not both occur,
`parseFromXMLNode` yields the same item. -/
theorem parseFromXMLNode_order_independent (self : RSSFeedItem) (name : String)
    (children1 children2 : List XmlNode) (hperm : children1.Perm children2)
    (hnodup : (children1.filterMap XmlNode.tagName).Nodup)
    (halias : ¬ ("author" ∈ children1.filterMap XmlNode.tagName
      ∧ "creator" ∈ children1.filterMap XmlNode.tagName)) :
    self.parseFromXMLNode (.element name children1)
      = self.parseFromXMLNode (.element name children2) := by
  have hsingle : ∀ tag, children1.filter (XmlNode.isElementNamed [tag])
      = children2.filter (XmlNode.isElementNamed [tag]) := fun tag =>
    filter_named_eq_of_perm [tag] _ _ hperm hnodup (single_tag_unique tag _)
  have hauthor : children1.filter (XmlNode.isElementNamed ["author", "creator"])
      = children2.filter (XmlNode.isElementNamed ["author", "creator"]) := by
    apply filter_named_eq_of_perm _ _ _ hperm hnodup
    intro t1 h1 t2 h2 m1 m2
    simp only [List.mem_cons, List.mem_singleton, List.not_mem_nil, or_false] at h1 h2
    rcases h1 with h1 | h1 <;> rcases h2 with h2 | h2 <;> subst h1 <;> subst h2
    · rfl
    · exact absurd ⟨m1, m2⟩ halias
    · exact absurd ⟨m2, m1⟩ halias
    · rfl
  rw [parseFromXMLNode_eq, parseFromXMLNode_eq]
  simp only [lastFieldValue, categoryValues, hsingle, hauthor]

/-- The amended C8 on `<title>T</title><guid>g1</guid>` and its reverse. -/
theorem parseFromXMLNode_order_independent_witness :
    titleThenGuid.Perm guidThenTitle
      ∧ (titleThenGuid.filterMap XmlNode.tagName).Nodup
      ∧ ¬ ("author" ∈ titleThenGuid.filterMap XmlNode.tagName
          ∧ "creator" ∈ titleThenGuid.filterMap XmlNode.tagName)
      ∧ RSSFeedItem.empty.parseFromXMLNode (.element "item" titleThenGuid)
          = RSSFeedItem.empty.parseFromXMLNode (.element "item" guidThenTitle) :=
  ⟨List.Perm.swap _ _ _, by decide, by decide,
    parseFromXMLNode_order_independent RSSFeedItem.empty "item" titleThenGuid guidThenTitle
      (List.Perm.swap _ _ _) (by decide) (by decide)⟩

/-- C9: for every item element, `categories` after parsing is `extractCDATA` of the content of
every child element named `category`, in document order, one entry for each such child, whatever
nodes stand between them; on an item that already has categories the new ones are appended. The
item with the `category` children `news`, `tech`, `news` among other nodes gets exactly these
three categories. -/
theorem parseFromXMLNode_accumulates_categories (name : String) (children : List XmlNode) :
    (RSSFeedItem.ofXMLNode (.element name children)).categories = categoryValues children
      ∧ (RSSFeedItem.ofXMLNode (.element name children)).categories.length
          = (children.filter (XmlNode.isElementNamed ["category"])).length
      ∧ (∀ self : RSSFeedItem, (self.parseFromXMLNode (.element name children)).categories
          = self.categories ++ categoryValues children)
      ∧ (RSSFeedItem.ofXMLNode itemWithThreeCategories).categories = ["news", "tech", "news"] := by
  have h : (RSSFeedItem.ofXMLNode (.element name children)).categories
      = categoryValues children := by
    rw [RSSFeedItem.ofXMLNode, parseFromXMLNode_eq]; rfl
  refine ⟨h, ?_, ?_, by decide⟩
  · rw [h]; simp [categoryValues]
  · intro self
    rw [parseFromXMLNode_eq]

/-! ## The feed parser -/

/-- One iteration of the channel loop, field by field. -/
theorem parseChannelChild_eq (self : RSSFeed) (node : XmlNode) :
    self.parseChannelChild node =
      { title := if node.isElementNamed ["title"] then extractCDATA node.innerText
          else self.title
        link := if node.isElementNamed ["link"] then extractCDATA node.innerText else self.link
        description := if node.isElementNamed ["description"] then extractCDATA node.innerText
          else self.description
        items := if node.isElementNamed ["item"] then self.items ++ [RSSFeedItem.ofXMLNode node]
          else self.items } := by
  cases node with
  | element name children =>
    simp only [RSSFeed.parseChannelChild, xmlNodeGetContent_element, isElementNamed_element,
      List.mem_cons, List.mem_singleton, List.not_mem_nil, or_false]
    split_ifs <;> simp_all
  | _ => rfl

theorem feed_eq_of_fields (a b : RSSFeed) (h1 : a.title = b.title) (h2 : a.link = b.link)
    (h3 : a.description = b.description) (h4 : a.items = b.items) : a = b := by
  cases a; cases b; simp_all

/-- The feed that the channel loop leaves, field by field. -/
theorem foldl_parseChannelChild_eq (self : RSSFeed) (nodes : List XmlNode) :
    nodes.foldl RSSFeed.parseChannelChild self =
      { title := lastFieldValue ["title"] nodes self.title
        link := lastFieldValue ["link"] nodes self.link
        description := lastFieldValue ["description"] nodes self.description
        items := self.items ++ itemValues nodes } := by
  apply feed_eq_of_fields
  · exact foldl_lastFieldValue _ RSSFeed.title _
      (fun s node => by rw [parseChannelChild_eq]) nodes self
  · exact foldl_lastFieldValue _ RSSFeed.link _
      (fun s node => by rw [parseChannelChild_eq]) nodes self
  · exact foldl_lastFieldValue _ RSSFeed.description _
      (fun s node => by rw [parseChannelChild_eq]) nodes self
  · exact foldl_collect _ RSSFeed.items _ _
      (fun s node => by rw [parseChannelChild_eq]) nodes self

/-- The loop over the children of the root runs the channel loop over the children of every
`channel` element, in document order. -/
theorem foldl_parseRootChild_eq :
    ∀ (nodes : List XmlNode) (self : RSSFeed),
      nodes.foldl RSSFeed.parseRootChild self
        = (channelNodes nodes).foldl RSSFeed.parseChannelChild self := by
  intro nodes
  induction nodes with
  | nil => intro self; rfl
  | cons node rest ih =>
    intro self
    rw [List.foldl_cons, ih]
    cases node with
    | element name children =>
      by_cases hname : name = "channel"
      · subst hname
        simp [RSSFeed.parseRootChild, channelNodes, XmlNode.isElementNamed, XmlNode.children,
          List.foldl_append]
      · simp [RSSFeed.parseRootChild, channelNodes, XmlNode.isElementNamed, hname]
    | _ => simp [RSSFeed.parseRootChild, channelNodes, XmlNode.isElementNamed]

/-- The feed that the feed parser builds from a parsed document. -/
theorem ofURL_eq (root : XmlNode) :
    RSSFeed.ofURL (some root) = .ok
      { title := lastFieldValue ["title"] (channelNodes root.children) ""
        link := lastFieldValue ["link"] (channelNodes root.children) ""
        description := lastFieldValue ["description"] (channelNodes root.children) ""
        items := itemValues (channelNodes root.children) } := by
  simp only [RSSFeed.ofURL, RSSFeed.fetchFromURL, foldl_parseRootChild_eq,
    foldl_parseChannelChild_eq, RSSFeed.empty, List.nil_append]

theorem channelNodes_of_none :
    ∀ nodes : List XmlNode, (∀ n ∈ nodes, n.isElementNamed ["channel"] = false) →
      channelNodes nodes = [] := by
  intro nodes
  induction nodes with
  | nil => intro _; rfl
  | cons node rest ih =>
    intro h
    have h1 : node.isElementNamed ["channel"] = false := h node (List.mem_cons_self _ _)
    have h2 := ih (fun n hn => h n (List.mem_cons_of_mem _ hn))
    simp [channelNodes, h1, h2]

theorem channelNodes_append :
    ∀ nodes1 nodes2 : List XmlNode,
      channelNodes (nodes1 ++ nodes2) = channelNodes nodes1 ++ channelNodes nodes2 := by
  intro nodes1 nodes2
  induction nodes1 with
  | nil => rfl
  | cons node rest ih =>
    by_cases h : node.isElementNamed ["channel"] = true
    · simp [channelNodes, h, ih]
    · simp [channelNodes, h, ih]

theorem channelNodes_single (before after channelChildren : List XmlNode)
    (hnone : ∀ n ∈ before ++ after, n.isElementNamed ["channel"] = false) :
    channelNodes (before ++ [.element "channel" channelChildren] ++ after) = channelChildren := by
  have hb := channelNodes_of_none before (fun n hn => hnone n (List.mem_append_left _ hn))
  have ha := channelNodes_of_none after (fun n hn => hnone n (List.mem_append_right _ hn))
  rw [channelNodes_append, channelNodes_append, hb, ha]
  simp [channelNodes, XmlNode.isElementNamed, XmlNode.children]

/-- C10: for every parsed document, the feed parser returns a feed whose `title`, `link` and
`description` are `extractCDATA` of the content of the last child element of `channel` with that
tag name (empty when there is none) and whose `items` are the item parser's results for the
child elements of `channel` named `item`, in document order and one for each; nothing else under
`channel` has any effect. The children of `channel` are `channelNodes`; when the root has one
`channel` child (preceded and followed by other nodes only) these are that element's children. -/
theorem fetchFromURL_builds_feed (root : XmlNode) :
    RSSFeed.ofURL (some root) = .ok
        { title := lastFieldValue ["title"] (channelNodes root.children) ""
          link := lastFieldValue ["link"] (channelNodes root.children) ""
          description := lastFieldValue ["description"] (channelNodes root.children) ""
          items := itemValues (channelNodes root.children) }
      ∧ (itemValues (channelNodes root.children)).length
          = ((channelNodes root.children).filter (XmlNode.isElementNamed ["item"])).length
      ∧ ∀ before channelChildren after : List XmlNode,
          root.children = before ++ [.element "channel" channelChildren] ++ after →
          (∀ n ∈ before ++ after, n.isElementNamed ["channel"] = false) →
          channelNodes root.children = channelChildren := by
  refine ⟨ofURL_eq root, by simp [itemValues], ?_⟩
  intro before channelChildren after hroot hnone
  rw [hroot]
  exact channelNodes_single before after channelChildren hnone

/-- C10 on the document with the channel title `Example` and one item with the title `Hello` in a
CDATA section and the GUID `g1`. -/
theorem fetchFromURL_builds_feed_witness :
    RSSFeed.ofURL (some exampleDocument) = .ok
        { title := "Example", link := "", description := "",
          items := [{ title := "Hello", link := "", guid := "g1", description := "",
                      pubDate := "", author := "", categories := [] }] }
      ∧ channelNodes exampleDocument.children =
          [.element "title" [.text "Example"],
           .element "item" [.element "title" [.cdata "Hello"], .element "guid" [.text "g1"]]] :=
  ⟨(fetchFromURL_builds_feed exampleDocument).1.trans (by decide),
    (fetchFromURL_builds_feed exampleDocument).2.2 [.text "\n"] _ [] rfl (by decide)⟩

/-! ## The feed parser: several channels, no channel -/

theorem channelNodes_first (before first rest : List XmlNode)
    (hbefore : ∀ n ∈ before, n.isElementNamed ["channel"] = false) :
    channelNodes (before ++ .element "channel" first :: rest) = first ++ channelNodes rest := by
  rw [channelNodes_append, channelNodes_of_none before hbefore]
  simp [channelNodes, XmlNode.isElementNamed, XmlNode.children]

/-- C11 fails on a document with two `channel` elements: the feed has the title of the second
channel and the items of both, not the title and the one item of the first channel alone. -/
theorem fetchFromURL_reads_every_channel :
    twoChannelDocument.children
        = [.element "channel" firstChannelChildren, .element "channel" secondChannelChildren]
      ∧ RSSFeed.ofURL (some twoChannelDocument) = .ok
          { title := "Second", link := "", description := "",
            items := [itemWithGuid "g1", itemWithGuid "g2"] }
      ∧ feedOfChannel firstChannelChildren
          = { title := "First", link := "", description := "", items := [itemWithGuid "g1"] }
      ∧ RSSFeed.ofURL (some twoChannelDocument) ≠ .ok (feedOfChannel firstChannelChildren) := by
  refine ⟨rfl, by decide, by decide, by decide⟩

/-- C11, amended: the feed parser walks every `channel` child of the root in document order. For
every document whose root has a first `channel` child and further children after it, the feed
starts from the metadata and items of the first channel; the children of the later `channel`
elements overwrite `title`, `link` and `description` wherever they have such an element
(last-value-wins across channels) and their items are appended after those of the first. -/
theorem fetchFromURL_first_channel_then_later (rootName : String)
    (before first rest : List XmlNode)
    (hbefore : ∀ n ∈ before, n.isElementNamed ["channel"] = false) :
    RSSFeed.ofURL (some (.element rootName (before ++ .element "channel" first :: rest))) = .ok
      { title := lastFieldValue ["title"] (channelNodes rest) (feedOfChannel first).title
        link := lastFieldValue ["link"] (channelNodes rest) (feedOfChannel first).link
        description :=
          lastFieldValue ["description"] (channelNodes rest) (feedOfChannel first).description
        items := (feedOfChannel first).items ++ itemValues (channelNodes rest) } := by
  simp only [RSSFeed.ofURL, RSSFeed.fetchFromURL, XmlNode.children, foldl_parseRootChild_eq]
  rw [channelNodes_first before first rest hbefore, List.foldl_append,
    foldl_parseChannelChild_eq RSSFeed.empty first, foldl_parseChannelChild_eq]
  simp [feedOfChannel, RSSFeed.empty]

/-- The amended C11 on the document with two channels. -/
theorem fetchFromURL_first_channel_then_later_witness :
    (∀ n ∈ ([] : List XmlNode), n.isElementNamed ["channel"] = false)
      ∧ RSSFeed.ofURL (some (.element "rss"
          ([] ++ .element "channel" firstChannelChildren
            :: [.element "channel" secondChannelChildren]))) = .ok
          { title := lastFieldValue ["title"] (channelNodes [.element "channel" secondChannelChildren])
              (feedOfChannel firstChannelChildren).title
            link := lastFieldValue ["link"] (channelNodes [.element "channel" secondChannelChildren])
              (feedOfChannel firstChannelChildren).link
            description :=
              lastFieldValue ["description"]
                (channelNodes [.element "channel" secondChannelChildren])
                (feedOfChannel firstChannelChildren).description
            items := (feedOfChannel firstChannelChildren).items
              ++ itemValues (channelNodes [.element "channel" secondChannelChildren]) } :=
  ⟨by simp, fetchFromURL_first_channel_then_later "rss" [] firstChannelChildren
    [.element "channel" secondChannelChildren] (by simp)⟩

/-- C12 fails on a document whose root has no `channel` child: the feed parser returns the
empty feed and raises no error. -/
theorem fetchFromURL_no_channel_no_error :
    (∀ n ∈ noChannelDocument.children, n.isElementNamed ["channel"] = false)
      ∧ RSSFeed.ofURL (some noChannelDocument) = .ok RSSFeed.empty
      ∧ ∀ e : Failure, RSSFeed.ofURL (some noChannelDocument) ≠ .error e := by
  refine ⟨by decide, by decide, ?_⟩
  intro e h
  have hok : RSSFeed.ofURL (some noChannelDocument) = .ok RSSFeed.empty := by decide
  rw [hok] at h
  cases h

/-- C12, amended: for every parsed document whose root has no `channel` child element, the feed
parser returns normally the feed with empty metadata and no items; the call fails only when the
document could not be parsed. -/
theorem fetchFromURL_no_channel_empty_feed (root : XmlNode)
    (hnone : ∀ n ∈ root.children, n.isElementNamed ["channel"] = false) :
    RSSFeed.ofURL (some root) = .ok RSSFeed.empty
      ∧ RSSFeed.ofURL none = .error .runtimeError := by
  refine ⟨?_, rfl⟩
  rw [ofURL_eq, channelNodes_of_none root.children hnone]
  rfl

/-- The amended C12 on the document `<rss></rss>`. -/
theorem fetchFromURL_no_channel_empty_feed_witness :
    (∀ n ∈ emptyRootDocument.children, n.isElementNamed ["channel"] = false)
      ∧ RSSFeed.ofURL (some emptyRootDocument) = .ok RSSFeed.empty
      ∧ RSSFeed.ofURL none = .error .runtimeError :=
  ⟨by decide, fetchFromURL_no_channel_empty_feed emptyRootDocument (by decide)⟩

/-! ## The CDATA extractor: what a call can return -/

theorem extractCDATA_cases (input : String) :
    extractCDATA input = input
      ∨ ∃ before after : List Char,
          input.data = before ++ cdataOpen ++ (extractCDATA input).data ++ cdataClose ++ after := by
  unfold extractCDATA
  cases hs : searchFirst cdataRegexEcma input.data with
  | none => exact Or.inl rfl
  | some g => exact Or.inr (searchFirst_cdata _ _ hs)

theorem extractCDATA_c_cases (input : String) :
    extractCDATA_c input = input
      ∨ ∃ before after : List Char,
          input.data = before ++ cdataOpen ++ (extractCDATA_c input).data ++ cdataClose
            ++ after := by
  unfold extractCDATA_c
  cases hs : searchLongest cdataRegexPosix input.data with
  | none => exact Or.inl rfl
  | some g => exact Or.inr (searchLongest_cdata _ _ hs)

theorem length_of_delimited (input result : String) (before after : List Char)
    (h : input.data = before ++ cdataOpen ++ result.data ++ cdataClose ++ after) :
    result.length + 12 ≤ input.length := by
  have hlen := congrArg List.length h
  have h1 : cdataOpen.length = 9 := by decide
  have h2 : cdataClose.length = 3 := by decide
  have h3 : input.length = input.data.length := rfl
  have h4 : result.length = result.data.length := rfl
  rw [List.length_append, List.length_append, List.length_append, List.length_append, h1, h2]
    at hlen
  omega

/-- C13: for every input, both renditions of `extractCDATA` return a string, and it is either
the input itself or a stretch of the input that stands right after an opener `<![CDATA[` and
right before a terminator `]]>`; in the second case it is at least 12 characters shorter than
the input. -/
theorem extractCDATA_input_or_delimited (input : String) :
    (extractCDATA input = input
        ∨ ∃ before after : List Char,
            input.data = before ++ cdataOpen ++ (extractCDATA input).data ++ cdataClose ++ after
              ∧ (extractCDATA input).length + 12 ≤ input.length)
      ∧ (extractCDATA_c input = input
        ∨ ∃ before after : List Char,
            input.data = before ++ cdataOpen ++ (extractCDATA_c input).data ++ cdataClose ++ after
              ∧ (extractCDATA_c input).length + 12 ≤ input.length) := by
  constructor
  · rcases extractCDATA_cases input with h | ⟨before, after, h⟩
    · exact Or.inl h
    · exact Or.inr ⟨before, after, h, length_of_delimited _ _ before after h⟩
  · rcases extractCDATA_c_cases input with h | ⟨before, after, h⟩
    · exact Or.inl h
    · exact Or.inr ⟨before, after, h, length_of_delimited _ _ before after h⟩

/-! ## The novelty engine: full capture, dependence on the set of GUIDs -/

theorem drainTempStack_eq (tempStack : GuidStack) :
    ∀ existingSet, drainTempStack tempStack existingSet
      = ([], buildExistingSet tempStack existingSet) := by
  induction tempStack with
  | nil => intro s; rfl
  | cons top rest ih => intro s; simp [drainTempStack, buildExistingSet, ih]

theorem extractNewRSSFeedItemsVars_eq (feed : RSSFeed) (existingGUIDs : GuidStack)
    (newItems : List RSSFeedItem) :
    extractNewRSSFeedItemsVars (some feed) existingGUIDs newItems =
      .ok (existingGUIDs, [],
        newItems ++ feed.items.filter (fun item => decide (item.guid ∉ existingGUIDs))) := by
  simp only [extractNewRSSFeedItemsVars, drainTempStack_eq, collectNewItems_eq,
    findIsEnd_buildExistingSet]

theorem filter_guid_not_mem_self (items : List RSSFeedItem) :
    items.filter (fun item => decide (item.guid ∉ items.map RSSFeedItem.guid)) = [] := by
  rw [List.filter_eq_nil_iff]
  intro x hx
  have hxm : x.guid ∈ items.map RSSFeedItem.guid := List.mem_map_of_mem _ hx
  simpa using List.mem_map.mp hxm

/-- C14: for every feed and every `maxCount` that is at least the number of items,
`getRSSFeedGUIDs` into an empty stack captures the GUID of every item, and
`extractNewRSSFeedItems` against that stack into an empty vector returns normally with no item;
so does the two-step pipeline. -/
theorem extractNew_after_full_capture_empty (feed : RSSFeed) (maxCount : Int)
    (hfull : (feed.items.length : Int) ≤ maxCount) :
    getRSSFeedGUIDs (some feed) [] maxCount = .ok (feed.items.map RSSFeedItem.guid)
      ∧ extractNewRSSFeedItems (some feed) (feed.items.map RSSFeedItem.guid) [] = .ok []
      ∧ (getRSSFeedGUIDs (some feed) [] maxCount >>= fun known =>
          extractNewRSSFeedItems (some feed) known []) = .ok [] := by
  have hcap : getRSSFeedGUIDs (some feed) [] maxCount
      = .ok (feed.items.map RSSFeedItem.guid) := by
    rw [getRSSFeedGUIDs_eq]
    have h0 : feed.items.length - maxCount.toNat = 0 := by omega
    simp [h0]
  have hnew : extractNewRSSFeedItems (some feed) (feed.items.map RSSFeedItem.guid) []
      = .ok [] := by
    rw [extractNewRSSFeedItems_eq, filter_guid_not_mem_self]
    rfl
  refine ⟨hcap, hnew, ?_⟩
  rw [hcap]
  exact hnew

/-- C14 on the feed with the GUIDs `a`, `b`, `c` and `maxCount = 3`, and on the empty feed. -/
theorem extractNew_after_full_capture_empty_witness :
    ((feedABC.items.length : Int) ≤ 3
        ∧ (getRSSFeedGUIDs (some feedABC) [] 3 >>= fun known =>
            extractNewRSSFeedItems (some feedABC) known []) = .ok [])
      ∧ ((RSSFeed.empty.items.length : Int) ≤ 0
        ∧ (getRSSFeedGUIDs (some RSSFeed.empty) [] 0 >>= fun known =>
            extractNewRSSFeedItems (some RSSFeed.empty) known []) = .ok []) :=
  ⟨⟨by decide, (extractNew_after_full_capture_empty feedABC 3 (by decide)).2.2⟩,
    ⟨by decide, (extractNew_after_full_capture_empty RSSFeed.empty 0 (by decide)).2.2⟩⟩

/-- C15: for every feed and any two stacks that hold the same set of strings,
`extractNewRSSFeedItems` appends the same items to `newItems`; at the return the caller's stack
is what it was before the call, while the local copy has been emptied. -/
theorem extractNew_depends_on_guid_set (feed : RSSFeed) (stack1 stack2 : GuidStack)
    (newItems : List RSSFeedItem) (hsame : ∀ guid : String, guid ∈ stack1 ↔ guid ∈ stack2) :
    extractNewRSSFeedItems (some feed) stack1 newItems
        = extractNewRSSFeedItems (some feed) stack2 newItems
      ∧ extractNewRSSFeedItemsVars (some feed) stack1 newItems =
          .ok (stack1, [],
            newItems ++ feed.items.filter (fun item => decide (item.guid ∉ stack1)))
      ∧ extractNewRSSFeedItems (some feed) stack1 newItems =
          .ok (newItems ++ feed.items.filter (fun item => decide (item.guid ∉ stack1))) := by
  refine ⟨?_, extractNewRSSFeedItemsVars_eq feed stack1 newItems,
    extractNewRSSFeedItems_eq feed stack1 newItems⟩
  rw [extractNewRSSFeedItems_eq, extractNewRSSFeedItems_eq]
  have hfilter : (fun item : RSSFeedItem => decide (item.guid ∉ stack1))
      = (fun item : RSSFeedItem => decide (item.guid ∉ stack2)) := by
    funext item
    simp [hsame item.guid]
  rw [hfilter]

/-- C15 on the stacks `a, b, a` and `b, a`, which hold the same two strings. -/
theorem extractNew_depends_on_guid_set_witness :
    (∀ guid : String, guid ∈ stackABA ↔ guid ∈ stackBA)
      ∧ extractNewRSSFeedItems (some feedABC) stackABA []
          = extractNewRSSFeedItems (some feedABC) stackBA []
      ∧ extractNewRSSFeedItemsVars (some feedABC) stackABA [] = .ok (stackABA, [], [itemWithGuid "c"]) :=
  have hsame : ∀ guid : String, guid ∈ stackABA ↔ guid ∈ stackBA := by
    intro guid
    simp only [stackABA, stackBA, List.mem_cons, List.mem_singleton, List.not_mem_nil, or_false]
    tauto
  ⟨hsame, (extractNew_depends_on_guid_set feedABC stackABA stackBA [] hsame).1,
    (extractNew_depends_on_guid_set feedABC stackABA stackBA [] hsame).2.1.trans (by decide)⟩

end RSStodon
